import Mathlib

set_option linter.unusedVariables false

/-! Verification of the motex package: a demoteable and promoteable exclusion
lock built from a plain mutex `w` (the write gate) and a reader-writer lock
`r` (the read/write gate).  The repository contains two variants of the
implementation: the bare composition of `w` and `r` (motex.go), and a guarded
variant that adds a mutex `g`, locked by `Demote` and unlocked by `Promote`,
to catch a `Promote` issued by a plain `RLock` holder.

The embedding models the single-threaded semantics of the Go primitives
exactly: an acquisition that cannot proceed is `blocked` (a single-threaded
deadlock), and the misuse checks built into Go's sync.Mutex and sync.RWMutex
(`unlock of unlocked mutex`, `Unlock of unlocked RWMutex`, `RUnlock of
unlocked RWMutex`) are `fatal`.  Concurrent behaviour is modelled separately
by small-step transition systems in which each gate primitive is one atomic
step. -/

/-- Primitive acquire/release actions on the internal gates of a Motex:
`w` (sync.Mutex, the write gate), `r` (sync.RWMutex, the read/write gate;
X = exclusive mode, S = shared mode) and, in the guarded variant only, the
guard mutex `g`. -/
inductive GateAct where
  | acqW | relW | acqX | relX | acqS | relS | acqG | relG
deriving DecidableEq

/-- Whether a gate action touches the write gate `w`. -/
def GateAct.onW : GateAct → Bool
  | .acqW => true
  | .relW => true
  | _ => false

/-- Whether a gate action touches the write gate `w` or the read/write gate
`r` (as opposed to the guard mutex `g` of the guarded variant). -/
def GateAct.onWR : GateAct → Bool
  | .acqG => false
  | .relG => false
  | _ => true

/-- Result of running lock operations single-threadedly: success with the
final state and the trace of gate actions performed in order, a blocked
acquisition (single-threaded deadlock), or a fatal run-time error (Go's
throw from the sync.Mutex / sync.RWMutex misuse checks). -/
inductive Res (σ : Type) where
  | ok (s : σ) (tr : List GateAct)
  | blocked
  | fatal
deriving DecidableEq

/-- Sequence two results, accumulating the gate-action trace; `blocked` and
`fatal` abort the sequence. -/
def Res.bind {σ : Type} : Res σ → (σ → Res σ) → Res σ
  | .ok s tr, f =>
    match f s with
    | .ok s2 tr2 => .ok s2 (tr ++ tr2)
    | .blocked => .blocked
    | .fatal => .fatal
  | .blocked, _ => .blocked
  | .fatal, _ => .fatal

/-- Did the run complete (neither block nor fault)? -/
def Res.isOk {σ : Type} : Res σ → Bool
  | .ok _ _ => true
  | _ => false

/-- State of a Go sync.RWMutex (single-threaded view): whether it is held in
exclusive mode (`writer`) and the number of shared holders (`readers`). -/
structure RWState where
  writer : Bool
  readers : Nat
deriving DecidableEq

/-- The six public operations of the package. -/
inductive Op where
  | Lock | Unlock | Demote | Promote | RLock | RUnlock
deriving DecidableEq

namespace Bare

/-- The bare Motex of src/motex.go: `w` blocks writes, `r` blocks reads. -/
structure Motex where
  w : Bool
  r : RWState
deriving DecidableEq

/-- m.w.Lock(): blocks while held, otherwise acquires. -/
def wLock (m : Motex) : Res Motex :=
  if m.w then .blocked else .ok { m with w := true } [.acqW]

/-- m.w.Unlock(): fatal if not held ("sync: unlock of unlocked mutex"). -/
def wUnlock (m : Motex) : Res Motex :=
  if m.w then .ok { m with w := false } [.relW] else .fatal

/-- m.r.Lock(): blocks while any exclusive or shared holder remains. -/
def rLock (m : Motex) : Res Motex :=
  if m.r.writer = false ∧ m.r.readers = 0 then
    .ok { m with r := { writer := true, readers := 0 } } [.acqX]
  else .blocked

/-- m.r.Unlock(): fatal if `r` is not held exclusively ("sync: Unlock of
unlocked RWMutex"). -/
def rUnlock (m : Motex) : Res Motex :=
  if m.r.writer then
    .ok { m with r := { writer := false, readers := m.r.readers } } [.relX]
  else .fatal

/-- m.r.RLock(): blocks while an exclusive holder is present, otherwise adds
one shared holder. -/
def rRLock (m : Motex) : Res Motex :=
  if m.r.writer then .blocked
  else .ok { m with r := { writer := false, readers := m.r.readers + 1 } } [.acqS]

/-- m.r.RUnlock(): fatal if there is no shared holder ("sync: RUnlock of
unlocked RWMutex"). -/
def rRUnlock (m : Motex) : Res Motex :=
  match m.r.readers with
  | 0 => .fatal
  | k + 1 => .ok { m with r := { writer := m.r.writer, readers := k } } [.relS]

/-- func (m *Motex) Lock() { m.w.Lock(); m.r.Lock() } -/
def Motex.Lock (m : Motex) : Res Motex := (wLock m).bind rLock

/-- func (m *Motex) Unlock() { m.r.Unlock(); m.w.Unlock() } -/
def Motex.Unlock (m : Motex) : Res Motex := (rUnlock m).bind wUnlock

/-- func (m *Motex) Demote() { m.r.Unlock(); m.r.RLock() } -/
def Motex.Demote (m : Motex) : Res Motex := (rUnlock m).bind rRLock

/-- func (m *Motex) Promote() { m.r.RUnlock(); m.r.Lock() } -/
def Motex.Promote (m : Motex) : Res Motex := (rRUnlock m).bind rLock

/-- func (m *Motex) RLock() { m.r.RLock() } -/
def Motex.RLock (m : Motex) : Res Motex := rRLock m

/-- func (m *Motex) RUnlock() { m.r.RUnlock() } -/
def Motex.RUnlock (m : Motex) : Res Motex := rRUnlock m

/-- The zero value of Motex: both gates free. -/
def init : Motex := { w := false, r := { writer := false, readers := 0 } }

/-- Dispatch one public operation. -/
def exec : Op → Motex → Res Motex
  | .Lock, m => m.Lock
  | .Unlock, m => m.Unlock
  | .Demote, m => m.Demote
  | .Promote, m => m.Promote
  | .RLock, m => m.RLock
  | .RUnlock, m => m.RUnlock

/-- Run a sequence of operations from a given state, single-threadedly. -/
def runFrom (m : Motex) : List Op → Res Motex
  | [] => .ok m []
  | op :: rest => (exec op m).bind (fun m2 => runFrom m2 rest)

/-- Run a sequence of operations on a fresh Motex. -/
def run (ops : List Op) : Res Motex := runFrom init ops

end Bare

namespace Guarded

/-- The guarded Motex of the package source with the extra guard mutex:
`w` blocks writes, `r` blocks reads, `g` guards against Promote after
RLock. -/
structure Motex where
  w : Bool
  r : RWState
  g : Bool
deriving DecidableEq

/-- m.w.Lock(). -/
def wLock (m : Motex) : Res Motex :=
  if m.w then .blocked else .ok { m with w := true } [.acqW]

/-- m.w.Unlock(): fatal if not held. -/
def wUnlock (m : Motex) : Res Motex :=
  if m.w then .ok { m with w := false } [.relW] else .fatal

/-- m.g.Lock(). -/
def gLock (m : Motex) : Res Motex :=
  if m.g then .blocked else .ok { m with g := true } [.acqG]

/-- m.g.Unlock(): fatal if not held ("sync: unlock of unlocked mutex"). -/
def gUnlock (m : Motex) : Res Motex :=
  if m.g then .ok { m with g := false } [.relG] else .fatal

/-- m.r.Lock(). -/
def rLock (m : Motex) : Res Motex :=
  if m.r.writer = false ∧ m.r.readers = 0 then
    .ok { m with r := { writer := true, readers := 0 } } [.acqX]
  else .blocked

/-- m.r.Unlock(): fatal if `r` is not held exclusively. -/
def rUnlock (m : Motex) : Res Motex :=
  if m.r.writer then
    .ok { m with r := { writer := false, readers := m.r.readers } } [.relX]
  else .fatal

/-- m.r.RLock(). -/
def rRLock (m : Motex) : Res Motex :=
  if m.r.writer then .blocked
  else .ok { m with r := { writer := false, readers := m.r.readers + 1 } } [.acqS]

/-- m.r.RUnlock(): fatal if there is no shared holder. -/
def rRUnlock (m : Motex) : Res Motex :=
  match m.r.readers with
  | 0 => .fatal
  | k + 1 => .ok { m with r := { writer := m.r.writer, readers := k } } [.relS]

/-- func (m *Motex) Lock() { m.w.Lock(); m.r.Lock() } -/
def Motex.Lock (m : Motex) : Res Motex := (wLock m).bind rLock

/-- func (m *Motex) Unlock() { m.r.Unlock(); m.w.Unlock() } -/
def Motex.Unlock (m : Motex) : Res Motex := (rUnlock m).bind wUnlock

/-- func (m *Motex) Demote() { m.r.Unlock(); m.r.RLock(); m.g.Lock() } -/
def Motex.Demote (m : Motex) : Res Motex :=
  ((rUnlock m).bind rRLock).bind gLock

/-- func (m *Motex) Promote() { m.r.RUnlock(); m.r.Lock(); m.g.Unlock() } -/
def Motex.Promote (m : Motex) : Res Motex :=
  ((rRUnlock m).bind rLock).bind gUnlock

/-- func (m *Motex) RLock() { m.r.RLock() } -/
def Motex.RLock (m : Motex) : Res Motex := rRLock m

/-- func (m *Motex) RUnlock() { m.r.RUnlock() } -/
def Motex.RUnlock (m : Motex) : Res Motex := rRUnlock m

/-- The zero value of Motex: all three gates free. -/
def init : Motex := { w := false, r := { writer := false, readers := 0 }, g := false }

/-- Dispatch one public operation. -/
def exec : Op → Motex → Res Motex
  | .Lock, m => m.Lock
  | .Unlock, m => m.Unlock
  | .Demote, m => m.Demote
  | .Promote, m => m.Promote
  | .RLock, m => m.RLock
  | .RUnlock, m => m.RUnlock

/-- Run a sequence of operations from a given state, single-threadedly. -/
def runFrom (m : Motex) : List Op → Res Motex
  | [] => .ok m []
  | op :: rest => (exec op m).bind (fun m2 => runFrom m2 rest)

/-- Run a sequence of operations on a fresh Motex. -/
def run (ops : List Op) : Res Motex := runFrom init ops

end Guarded

/-- Modelled from the spec: the abstract state machine of section 4.3, for
single-threaded call sequences.  `WriteLockedDemoted k` carries the number
`k` of plain readers present during the demoted window (the demoted writer
itself occupies one further shared slot); `ReadLocked k` means `k + 1` plain
readers hold the lock.  An operation whose section 4.3 precondition does not
hold in the current state — or whose acquisition would block forever in a
single-threaded run — yields `none`. -/
inductive SpecState where
  | Unlocked
  | WriteLocked
  | WriteLockedDemoted (k : Nat)
  | ReadLocked (k : Nat)
deriving DecidableEq

/-- Modelled from the spec: one transition of the section 4.3 table. -/
def specStep : Op → SpecState → Option SpecState
  | .Lock, .Unlocked => some .WriteLocked
  | .Lock, _ => none
  | .Unlock, .WriteLocked => some .Unlocked
  | .Unlock, _ => none
  | .Demote, .WriteLocked => some (.WriteLockedDemoted 0)
  | .Demote, _ => none
  | .Promote, .WriteLockedDemoted 0 => some .WriteLocked
  | .Promote, _ => none
  | .RLock, .Unlocked => some (.ReadLocked 0)
  | .RLock, .ReadLocked k => some (.ReadLocked (k + 1))
  | .RLock, .WriteLockedDemoted k => some (.WriteLockedDemoted (k + 1))
  | .RLock, .WriteLocked => none
  | .RUnlock, .ReadLocked 0 => some .Unlocked
  | .RUnlock, .ReadLocked (k + 1) => some (.ReadLocked k)
  | .RUnlock, .WriteLockedDemoted (k + 1) => some (.WriteLockedDemoted k)
  | .RUnlock, _ => none

/-- Run the section 4.3 state machine over a call sequence. -/
def specRunFrom (s : SpecState) : List Op → Option SpecState
  | [] => some s
  | op :: rest =>
    match specStep op s with
    | some s2 => specRunFrom s2 rest
    | none => none

/-- Run the section 4.3 state machine from the initial `Unlocked` state. -/
def specRun (ops : List Op) : Option SpecState := specRunFrom .Unlocked ops

/-- The bare Motex state realizing a section 4.3 abstract state. -/
def conc : SpecState → Bare.Motex
  | .Unlocked => ⟨false, ⟨false, 0⟩⟩
  | .WriteLocked => ⟨true, ⟨true, 0⟩⟩
  | .WriteLockedDemoted k => ⟨true, ⟨false, k + 1⟩⟩
  | .ReadLocked k => ⟨false, ⟨false, k + 1⟩⟩

/-- The guarded Motex state realizing a section 4.3 abstract state: the guard
mutex `g` is held exactly during the demoted window. -/
def concG : SpecState → Guarded.Motex
  | .Unlocked => ⟨false, ⟨false, 0⟩, false⟩
  | .WriteLocked => ⟨true, ⟨true, 0⟩, false⟩
  | .WriteLockedDemoted k => ⟨true, ⟨false, k + 1⟩, true⟩
  | .ReadLocked k => ⟨false, ⟨false, k + 1⟩, false⟩

/-- The legal sequence of the deadlock test (TestMotexDoesntDeadlock). -/
def deadlockSeq : List Op :=
  [.Lock, .Demote, .Promote, .Demote, .RLock, .RLock, .RUnlock, .RUnlock,
   .Promote, .Unlock, .RLock, .RLock, .RUnlock, .RUnlock]

/-- Sum of a per-thread weight over all thread slots. -/
def wsum {α : Type} {n : Nat} (g : α → Nat) (f : Fin n → α) : Nat :=
  ∑ i : Fin n, g (f i)

/-- Number of thread slots satisfying `p`. -/
def cnt {α : Type} {n : Nat} (p : α → Bool) (f : Fin n → α) : Nat :=
  wsum (fun t => if p t then 1 else 0) f

namespace Conc

/-! A small-step concurrent model of the bare Motex shared by any number of
well-behaved client threads.  Each primitive gate action is one atomic step;
a public operation made of two primitives is two steps, so other threads can
interleave between them.  Each thread is a legal client: it only issues the
next primitive of a legal operation for its own session state. -/

/-- Per-thread program point.  `idle`: holds nothing; `wAcq`: inside `Lock`,
holds `w`, about to acquire `r` exclusively; `held`: holds `w` and `r`
exclusively (WriteLocked); `dRel`: inside `Demote`, released exclusive mode,
about to acquire shared mode; `dHeld`: demoted, holds `w` and one shared
slot; `pRel`: inside `Promote`, released the shared slot, about to acquire
exclusive mode; `uMid`: inside `Unlock`, released exclusive mode, about to
release `w`; `rHeld`: plain reader holding one shared slot. -/
inductive TPC where
  | idle | wAcq | held | dRel | dHeld | pRel | uMid | rHeld
deriving DecidableEq

/-- Does a thread at this program point hold the write gate `w`? -/
def holdsW : TPC → Bool
  | .idle => false
  | .rHeld => false
  | _ => true

/-- Does a thread at this program point hold a shared slot of `r`? -/
def isShared : TPC → Bool
  | .dHeld => true
  | .rHeld => true
  | _ => false

/-- Does a thread at this program point hold `r` exclusively? -/
def isHeld : TPC → Bool
  | .held => true
  | _ => false

/-- Is the thread the demoted holder of a shared slot? -/
def isDHeld : TPC → Bool
  | .dHeld => true
  | _ => false

/-- Is the thread a plain reader holding a shared slot? -/
def isRHeld : TPC → Bool
  | .rHeld => true
  | _ => false

/-- Is the thread inside its `Demote` .. `Promote` window (the demoted span,
including the two-primitive interiors of Demote and Promote)? -/
def inDemotedWindow : TPC → Bool
  | .dRel => true
  | .dHeld => true
  | .pRel => true
  | _ => false

/-- Global state: the physical gate states of the bare Motex plus every
thread's program point. -/
structure GState (n : Nat) where
  w : Bool
  writer : Bool
  readers : Nat
  pc : Fin n → TPC

/-- One atomic gate primitive executed by thread `i`, with the enabling
condition of the corresponding Go primitive. -/
inductive Step {n : Nat} (i : Fin n) : GState n → GState n → Prop where
  | startLock (G : GState n) (hp : G.pc i = .idle) (hw : G.w = false) :
      Step i G ⟨true, G.writer, G.readers, Function.update G.pc i .wAcq⟩
  | finishLock (G : GState n) (hp : G.pc i = .wAcq) (hwr : G.writer = false)
      (hr : G.readers = 0) :
      Step i G ⟨G.w, true, G.readers, Function.update G.pc i .held⟩
  | demoteRel (G : GState n) (hp : G.pc i = .held) (hwr : G.writer = true) :
      Step i G ⟨G.w, false, G.readers, Function.update G.pc i .dRel⟩
  | demoteAcq (G : GState n) (hp : G.pc i = .dRel) (hwr : G.writer = false) :
      Step i G ⟨G.w, false, G.readers + 1, Function.update G.pc i .dHeld⟩
  | promoteRel (G : GState n) (hp : G.pc i = .dHeld) (hr : 0 < G.readers) :
      Step i G ⟨G.w, G.writer, G.readers - 1, Function.update G.pc i .pRel⟩
  | promoteAcq (G : GState n) (hp : G.pc i = .pRel) (hwr : G.writer = false)
      (hr : G.readers = 0) :
      Step i G ⟨G.w, true, G.readers, Function.update G.pc i .held⟩
  | unlockRel (G : GState n) (hp : G.pc i = .held) (hwr : G.writer = true) :
      Step i G ⟨G.w, false, G.readers, Function.update G.pc i .uMid⟩
  | unlockW (G : GState n) (hp : G.pc i = .uMid) (hw : G.w = true) :
      Step i G ⟨false, G.writer, G.readers, Function.update G.pc i .idle⟩
  | rlock (G : GState n) (hp : G.pc i = .idle) (hwr : G.writer = false) :
      Step i G ⟨G.w, G.writer, G.readers + 1, Function.update G.pc i .rHeld⟩
  | runlock (G : GState n) (hp : G.pc i = .rHeld) (hr : 0 < G.readers) :
      Step i G ⟨G.w, G.writer, G.readers - 1, Function.update G.pc i .idle⟩

/-- The initial global state: all gates free, all threads idle. -/
def init (n : Nat) : GState n := ⟨false, false, 0, fun _ => .idle⟩

/-- Reachability by interleaved legal steps from the initial state. -/
def Reachable {n : Nat} (G : GState n) : Prop :=
  Relation.ReflTransGen (fun a b => ∃ i, Step i a b) (init n) G

/-- The inductive invariant tying the physical gate states to the thread
program points. -/
structure Inv {n : Nat} (G : GState n) : Prop where
  hU : cnt holdsW G.pc ≤ 1
  hW : G.w = true ↔ 0 < cnt holdsW G.pc
  hX : G.writer = true ↔ 0 < cnt isHeld G.pc
  hR : G.readers = cnt isShared G.pc
  hE : 0 < cnt isHeld G.pc → cnt isShared G.pc = 0


/-- A concrete two-thread state: thread 0 demoted (holding `w` and one
shared slot), thread 1 idle. -/
def exDemoted : GState 2 :=
  ⟨true, false, 1,
    Function.update (Function.update (Function.update (Function.update
      (fun _ => TPC.idle) 0 TPC.wAcq) 0 TPC.held) 0 TPC.dRel) 0 TPC.dHeld⟩

end Conc

namespace Incr

/-! A small-step concurrent model of `n` threads each executing the
demoted-increment body of the test suite on one shared bare Motex and one
shared counter:

  Lock(); Demote(); x := counter; Promote(); counter = x + 1; Unlock()

Each primitive gate action, the read and the write are atomic steps; any
interleaving is allowed.  Program points name the next pending action:
`a0` acquire `w`; `a1` acquire `r` exclusively; `a2` release exclusive
(first half of Demote); `a3` acquire shared (second half of Demote);
`a4` read the counter; `a5` release shared (first half of Promote);
`a6` acquire exclusive (second half of Promote); `a7` write the counter;
`a8` release exclusive (first half of Unlock); `a9` release `w`;
`fin` done. -/

/-- Program point of one increment thread. -/
inductive IPC where
  | a0 | a1 | a2 | a3 | a4 | a5 | a6 | a7 | a8 | a9 | fin
deriving DecidableEq

/-- Thread is between its first and last primitive (holds the write gate). -/
def active : IPC → Bool
  | .a0 => false
  | .fin => false
  | _ => true

/-- Thread holds `r` exclusively. -/
def inX : IPC → Bool
  | .a2 => true
  | .a7 => true
  | .a8 => true
  | _ => false

/-- Thread holds a shared slot of `r`. -/
def inS : IPC → Bool
  | .a4 => true
  | .a5 => true
  | _ => false

/-- Thread has already performed its counter write. -/
def wrote : IPC → Bool
  | .a8 => true
  | .a9 => true
  | .fin => true
  | _ => false

/-- Thread has read the counter but not yet written it back. -/
def mid : IPC → Bool
  | .a5 => true
  | .a6 => true
  | .a7 => true
  | _ => false

/-- Global state: the gates of the bare Motex, the shared counter, every
thread's program point and local copy `x`. -/
structure IState (n : Nat) where
  w : Bool
  writer : Bool
  readers : Nat
  counter : Nat
  pc : Fin n → IPC
  loc : Fin n → Nat

/-- One atomic step of thread `i`, with the enabling condition of the
corresponding Go primitive. -/
inductive Step {n : Nat} (i : Fin n) : IState n → IState n → Prop where
  | acqW (S : IState n) (hp : S.pc i = .a0) (hw : S.w = false) :
      Step i S ⟨true, S.writer, S.readers, S.counter,
        Function.update S.pc i .a1, S.loc⟩
  | acqX1 (S : IState n) (hp : S.pc i = .a1) (hwr : S.writer = false)
      (hr : S.readers = 0) :
      Step i S ⟨S.w, true, S.readers, S.counter,
        Function.update S.pc i .a2, S.loc⟩
  | relX1 (S : IState n) (hp : S.pc i = .a2) (hwr : S.writer = true) :
      Step i S ⟨S.w, false, S.readers, S.counter,
        Function.update S.pc i .a3, S.loc⟩
  | acqS (S : IState n) (hp : S.pc i = .a3) (hwr : S.writer = false) :
      Step i S ⟨S.w, false, S.readers + 1, S.counter,
        Function.update S.pc i .a4, S.loc⟩
  | readC (S : IState n) (hp : S.pc i = .a4) :
      Step i S ⟨S.w, S.writer, S.readers, S.counter,
        Function.update S.pc i .a5, Function.update S.loc i S.counter⟩
  | relS (S : IState n) (hp : S.pc i = .a5) (hr : 0 < S.readers) :
      Step i S ⟨S.w, S.writer, S.readers - 1, S.counter,
        Function.update S.pc i .a6, S.loc⟩
  | acqX2 (S : IState n) (hp : S.pc i = .a6) (hwr : S.writer = false)
      (hr : S.readers = 0) :
      Step i S ⟨S.w, true, S.readers, S.counter,
        Function.update S.pc i .a7, S.loc⟩
  | writeC (S : IState n) (hp : S.pc i = .a7) :
      Step i S ⟨S.w, S.writer, S.readers, S.loc i + 1,
        Function.update S.pc i .a8, S.loc⟩
  | relX2 (S : IState n) (hp : S.pc i = .a8) (hwr : S.writer = true) :
      Step i S ⟨S.w, false, S.readers, S.counter,
        Function.update S.pc i .a9, S.loc⟩
  | relW (S : IState n) (hp : S.pc i = .a9) (hw : S.w = true) :
      Step i S ⟨false, S.writer, S.readers, S.counter,
        Function.update S.pc i .fin, S.loc⟩

/-- Initial state: gates free, counter 0, all threads at the start. -/
def init (n : Nat) : IState n := ⟨false, false, 0, 0, fun _ => .a0, fun _ => 0⟩

/-- Reachability by interleaved steps from the initial state. -/
def Reachable {n : Nat} (S : IState n) : Prop :=
  Relation.ReflTransGen (fun a b => ∃ i, Step i a b) (init n) S

/-- The inductive invariant: the write gate serializes thread bodies, the
counter counts the threads whose write has happened, and a thread between
its read and its write has the current counter in its local copy. -/
structure Inv {n : Nat} (S : IState n) : Prop where
  hU : cnt active S.pc ≤ 1
  hW : S.w = true ↔ 0 < cnt active S.pc
  hX : S.writer = true ↔ 0 < cnt inX S.pc
  hR : S.readers = cnt inS S.pc
  hC : S.counter = cnt wrote S.pc
  hL : ∀ j, mid (S.pc j) = true → S.loc j = S.counter

end Incr

theorem wsum_update {α : Type} {n : Nat} (g : α → Nat) (f : Fin n → α)
    (i : Fin n) (v : α) :
    wsum g (Function.update f i v) + g (f i) = wsum g f + g v := by
  have hA : g (Function.update f i v i)
        + ∑ j ∈ Finset.univ.erase i, g (Function.update f i v j)
      = ∑ j : Fin n, g (Function.update f i v j) :=
    Finset.add_sum_erase Finset.univ (fun j => g (Function.update f i v j))
      (Finset.mem_univ i)
  have hB : g (f i) + ∑ j ∈ Finset.univ.erase i, g (f j) = ∑ j : Fin n, g (f j) :=
    Finset.add_sum_erase Finset.univ (fun j => g (f j)) (Finset.mem_univ i)
  have hC : (∑ j ∈ Finset.univ.erase i, g (Function.update f i v j))
      = ∑ j ∈ Finset.univ.erase i, g (f j) :=
    Finset.sum_congr rfl fun j hj => by
      rw [Function.update_noteq (Finset.mem_erase.1 hj).1]
  rw [Function.update_same] at hA
  unfold wsum
  omega

theorem cnt_update {α : Type} {n : Nat} (p : α → Bool) (f : Fin n → α)
    (i : Fin n) (v : α) :
    cnt p (Function.update f i v) + (if p (f i) then 1 else 0)
      = cnt p f + (if p v then 1 else 0) :=
  wsum_update _ f i v

theorem cnt_eq_zero_iff {α : Type} {n : Nat} (p : α → Bool) (f : Fin n → α) :
    cnt p f = 0 ↔ ∀ j, p (f j) = false := by
  unfold cnt wsum
  rw [Finset.sum_eq_zero_iff]
  constructor
  · intro h j
    have hj := h j (Finset.mem_univ j)
    cases hp : p (f j)
    · rfl
    · simp [hp] at hj
  · intro h j _
    simp [h j]

theorem cnt_pos_iff {α : Type} {n : Nat} (p : α → Bool) (f : Fin n → α) :
    0 < cnt p f ↔ ∃ j, p (f j) = true := by
  constructor
  · intro h
    by_contra hc
    push_neg at hc
    have h0 : cnt p f = 0 := (cnt_eq_zero_iff p f).2 fun j => by
      cases hj : p (f j)
      · rfl
      · exact absurd hj (hc j)
    omega
  · rintro ⟨j, hj⟩
    have h1 : (if p (f j) = true then (1 : Nat) else 0) ≤ cnt p f := by
      unfold cnt wsum
      exact Finset.single_le_sum
        (f := fun x => if p (f x) = true then (1 : Nat) else 0)
        (fun _ _ => Nat.zero_le _) (Finset.mem_univ j)
    simp only [hj, if_true] at h1
    omega

theorem cnt_mono {α : Type} {n : Nat} (p q : α → Bool) (f : Fin n → α)
    (h : ∀ t, p t = true → q t = true) : cnt p f ≤ cnt q f := by
  unfold cnt wsum
  apply Finset.sum_le_sum
  intro j _
  cases hj : p (f j)
  · simp [hj]
  · simp [hj, h _ hj]

theorem cnt_two_le {α : Type} {n : Nat} (p : α → Bool) (f : Fin n → α)
    (i j : Fin n) (hij : i ≠ j) (hi : p (f i) = true) (hj : p (f j) = true) :
    2 ≤ cnt p f := by
  have h1 : (∑ x ∈ ({i, j} : Finset (Fin n)), if p (f x) = true then (1 : Nat) else 0)
      ≤ cnt p f := by
    unfold cnt wsum
    exact Finset.sum_le_sum_of_subset (Finset.subset_univ _)
  rw [Finset.sum_pair hij] at h1
  rw [hi, hj] at h1
  simp only [if_true] at h1
  omega

theorem eq_of_cnt_le_one {α : Type} {n : Nat} (p : α → Bool) (f : Fin n → α)
    (h : cnt p f ≤ 1) (i j : Fin n) (hi : p (f i) = true) (hj : p (f j) = true) :
    i = j := by
  by_contra hij
  have h2 := cnt_two_le p f i j hij hi hj
  omega

theorem cnt_split {α : Type} {n : Nat} (p q r : α → Bool) (f : Fin n → α)
    (h : ∀ t, (if p t then (1 : Nat) else 0)
      = (if q t then 1 else 0) + (if r t then 1 else 0)) :
    cnt p f = cnt q f + cnt r f := by
  unfold cnt wsum
  rw [← Finset.sum_add_distrib]
  exact Finset.sum_congr rfl fun j _ => h (f j)

theorem cnt_all {α : Type} {n : Nat} (p : α → Bool) (f : Fin n → α)
    (h : ∀ j, p (f j) = true) : cnt p f = n := by
  unfold cnt wsum
  show (∑ j : Fin n, if p (f j) = true then (1 : Nat) else 0) = n
  have h2 : (∑ j : Fin n, if p (f j) = true then (1 : Nat) else 0)
      = ∑ j : Fin n, 1 :=
    Finset.sum_congr rfl fun j _ => by rw [h j]; simp
  rw [h2]
  simp

namespace Conc

theorem isHeld_imp_holdsW : ∀ t, isHeld t = true → holdsW t = true := by
  intro t ht
  cases t <;> simp_all [isHeld, holdsW]

theorem isDHeld_imp_holdsW : ∀ t, isDHeld t = true → holdsW t = true := by
  intro t ht
  cases t <;> simp_all [isDHeld, holdsW]

theorem window_imp_holdsW : ∀ t, inDemotedWindow t = true → holdsW t = true := by
  intro t ht
  cases t <;> simp_all [inDemotedWindow, holdsW]

theorem shared_eq_dheld_add_rheld {n : Nat} (pc : Fin n → TPC) :
    cnt isShared pc = cnt isDHeld pc + cnt isRHeld pc :=
  cnt_split _ _ _ _ fun t => by cases t <;> simp [isShared, isDHeld, isRHeld]

theorem inv_init (n : Nat) : Inv (init n) := by
  have h0 : ∀ p : TPC → Bool, p TPC.idle = false → cnt p (init n).pc = 0 :=
    fun p hp => (cnt_eq_zero_iff p _).2 fun _ => hp
  refine ⟨?_, ?_, ?_, ?_, ?_⟩
  · rw [h0 holdsW rfl]; omega
  · rw [h0 holdsW rfl]
    exact Iff.intro (fun h => absurd h (by simp [init])) (fun h => absurd h (by omega))
  · rw [h0 isHeld rfl]
    exact Iff.intro (fun h => absurd h (by simp [init])) (fun h => absurd h (by omega))
  · rw [h0 isShared rfl]; rfl
  · rw [h0 isHeld rfl, h0 isShared rfl]; omega

theorem inv_step {n : Nat} {i : Fin n} {G H : GState n} (hInv : Inv G)
    (hstep : Step i G H) : Inv H := by
  obtain ⟨hU, hW, hX, hR, hE⟩ := hInv
  have hm := cnt_mono isHeld holdsW G.pc isHeld_imp_holdsW
  cases hstep with
  | startLock hp hw =>
    have eW := cnt_update holdsW G.pc i TPC.wAcq
    have eX := cnt_update isHeld G.pc i TPC.wAcq
    have eS := cnt_update isShared G.pc i TPC.wAcq
    rw [hp] at eW eX eS
    simp [holdsW, isHeld, isShared] at eW eX eS
    have h0 : cnt holdsW G.pc = 0 := by
      by_contra hc
      have h1 : G.w = true := hW.2 (by omega)
      rw [h1] at hw; cases hw
    refine ⟨?_, ?_, ?_, ?_, ?_⟩ <;> dsimp only
    · omega
    · exact Iff.intro (fun _ => by omega) (fun _ => rfl)
    · have h2 : cnt isHeld (Function.update G.pc i TPC.wAcq) = cnt isHeld G.pc := by
        omega
      rw [h2]; exact hX
    · have h2 : cnt isShared (Function.update G.pc i TPC.wAcq) = cnt isShared G.pc := by
        omega
      rw [h2]; exact hR
    · intro h
      have h2 : 0 < cnt isHeld G.pc := by omega
      have h3 := hE h2
      omega
  | finishLock hp hwr hr =>
    have eW := cnt_update holdsW G.pc i TPC.held
    have eX := cnt_update isHeld G.pc i TPC.held
    have eS := cnt_update isShared G.pc i TPC.held
    rw [hp] at eW eX eS
    simp [holdsW, isHeld, isShared] at eW eX eS
    have hs0 : cnt isShared G.pc = 0 := by rw [← hR]; exact hr
    refine ⟨?_, ?_, ?_, ?_, ?_⟩ <;> dsimp only
    · omega
    · have h2 : cnt holdsW (Function.update G.pc i TPC.held) = cnt holdsW G.pc := by
        omega
      rw [h2]; exact hW
    · exact Iff.intro (fun _ => by omega) (fun _ => rfl)
    · omega
    · intro _
      omega
  | demoteRel hp hwr =>
    have eW := cnt_update holdsW G.pc i TPC.dRel
    have eX := cnt_update isHeld G.pc i TPC.dRel
    have eS := cnt_update isShared G.pc i TPC.dRel
    rw [hp] at eW eX eS
    simp [holdsW, isHeld, isShared] at eW eX eS
    have hx1 : 0 < cnt isHeld G.pc := hX.1 hwr
    refine ⟨?_, ?_, ?_, ?_, ?_⟩ <;> dsimp only
    · omega
    · have h2 : cnt holdsW (Function.update G.pc i TPC.dRel) = cnt holdsW G.pc := by
        omega
      rw [h2]; exact hW
    · exact Iff.intro (fun h => absurd h (by simp)) (fun h => absurd h (by omega))
    · have h2 : cnt isShared (Function.update G.pc i TPC.dRel) = cnt isShared G.pc := by
        omega
      rw [h2]; exact hR
    · intro h
      omega
  | demoteAcq hp hwr =>
    have eW := cnt_update holdsW G.pc i TPC.dHeld
    have eX := cnt_update isHeld G.pc i TPC.dHeld
    have eS := cnt_update isShared G.pc i TPC.dHeld
    rw [hp] at eW eX eS
    simp [holdsW, isHeld, isShared] at eW eX eS
    have hx0 : cnt isHeld G.pc = 0 := by
      by_contra hc
      have h1 : G.writer = true := hX.2 (by omega)
      rw [h1] at hwr; cases hwr
    refine ⟨?_, ?_, ?_, ?_, ?_⟩ <;> dsimp only
    · omega
    · have h2 : cnt holdsW (Function.update G.pc i TPC.dHeld) = cnt holdsW G.pc := by
        omega
      rw [h2]; exact hW
    · exact Iff.intro (fun h => absurd h (by simp)) (fun h => absurd h (by omega))
    · omega
    · intro h
      omega
  | promoteRel hp hr =>
    have eW := cnt_update holdsW G.pc i TPC.pRel
    have eX := cnt_update isHeld G.pc i TPC.pRel
    have eS := cnt_update isShared G.pc i TPC.pRel
    rw [hp] at eW eX eS
    simp [holdsW, isHeld, isShared] at eW eX eS
    refine ⟨?_, ?_, ?_, ?_, ?_⟩ <;> dsimp only
    · omega
    · have h2 : cnt holdsW (Function.update G.pc i TPC.pRel) = cnt holdsW G.pc := by
        omega
      rw [h2]; exact hW
    · have h2 : cnt isHeld (Function.update G.pc i TPC.pRel) = cnt isHeld G.pc := by
        omega
      rw [h2]; exact hX
    · omega
    · intro h
      have h2 : 0 < cnt isHeld G.pc := by omega
      have h3 := hE h2
      omega
  | promoteAcq hp hwr hr =>
    have eW := cnt_update holdsW G.pc i TPC.held
    have eX := cnt_update isHeld G.pc i TPC.held
    have eS := cnt_update isShared G.pc i TPC.held
    rw [hp] at eW eX eS
    simp [holdsW, isHeld, isShared] at eW eX eS
    have hs0 : cnt isShared G.pc = 0 := by rw [← hR]; exact hr
    refine ⟨?_, ?_, ?_, ?_, ?_⟩ <;> dsimp only
    · omega
    · have h2 : cnt holdsW (Function.update G.pc i TPC.held) = cnt holdsW G.pc := by
        omega
      rw [h2]; exact hW
    · exact Iff.intro (fun _ => by omega) (fun _ => rfl)
    · omega
    · intro _
      omega
  | unlockRel hp hwr =>
    have eW := cnt_update holdsW G.pc i TPC.uMid
    have eX := cnt_update isHeld G.pc i TPC.uMid
    have eS := cnt_update isShared G.pc i TPC.uMid
    rw [hp] at eW eX eS
    simp [holdsW, isHeld, isShared] at eW eX eS
    have hx1 : 0 < cnt isHeld G.pc := hX.1 hwr
    refine ⟨?_, ?_, ?_, ?_, ?_⟩ <;> dsimp only
    · omega
    · have h2 : cnt holdsW (Function.update G.pc i TPC.uMid) = cnt holdsW G.pc := by
        omega
      rw [h2]; exact hW
    · exact Iff.intro (fun h => absurd h (by simp)) (fun h => absurd h (by omega))
    · have h2 : cnt isShared (Function.update G.pc i TPC.uMid) = cnt isShared G.pc := by
        omega
      rw [h2]; exact hR
    · intro h
      omega
  | unlockW hp hw =>
    have eW := cnt_update holdsW G.pc i TPC.idle
    have eX := cnt_update isHeld G.pc i TPC.idle
    have eS := cnt_update isShared G.pc i TPC.idle
    rw [hp] at eW eX eS
    simp [holdsW, isHeld, isShared] at eW eX eS
    have hw1 : 0 < cnt holdsW G.pc := hW.1 hw
    refine ⟨?_, ?_, ?_, ?_, ?_⟩ <;> dsimp only
    · omega
    · exact Iff.intro (fun h => absurd h (by simp)) (fun h => absurd h (by omega))
    · have h2 : cnt isHeld (Function.update G.pc i TPC.idle) = cnt isHeld G.pc := by
        omega
      rw [h2]; exact hX
    · have h2 : cnt isShared (Function.update G.pc i TPC.idle) = cnt isShared G.pc := by
        omega
      rw [h2]; exact hR
    · intro h
      have h2 : 0 < cnt isHeld G.pc := by omega
      have h3 := hE h2
      omega
  | rlock hp hwr =>
    have eW := cnt_update holdsW G.pc i TPC.rHeld
    have eX := cnt_update isHeld G.pc i TPC.rHeld
    have eS := cnt_update isShared G.pc i TPC.rHeld
    rw [hp] at eW eX eS
    simp [holdsW, isHeld, isShared] at eW eX eS
    have hx0 : cnt isHeld G.pc = 0 := by
      by_contra hc
      have h1 : G.writer = true := hX.2 (by omega)
      rw [h1] at hwr; cases hwr
    refine ⟨?_, ?_, ?_, ?_, ?_⟩ <;> dsimp only
    · omega
    · have h2 : cnt holdsW (Function.update G.pc i TPC.rHeld) = cnt holdsW G.pc := by
        omega
      rw [h2]; exact hW
    · have h2 : cnt isHeld (Function.update G.pc i TPC.rHeld) = cnt isHeld G.pc := by
        omega
      rw [h2]; exact hX
    · omega
    · intro h
      omega
  | runlock hp hr =>
    have eW := cnt_update holdsW G.pc i TPC.idle
    have eX := cnt_update isHeld G.pc i TPC.idle
    have eS := cnt_update isShared G.pc i TPC.idle
    rw [hp] at eW eX eS
    simp [holdsW, isHeld, isShared] at eW eX eS
    refine ⟨?_, ?_, ?_, ?_, ?_⟩ <;> dsimp only
    · omega
    · have h2 : cnt holdsW (Function.update G.pc i TPC.idle) = cnt holdsW G.pc := by
        omega
      rw [h2]; exact hW
    · have h2 : cnt isHeld (Function.update G.pc i TPC.idle) = cnt isHeld G.pc := by
        omega
      rw [h2]; exact hX
    · omega
    · intro h
      have h2 : 0 < cnt isHeld G.pc := by omega
      have h3 := hE h2
      omega

theorem inv_reachable {n : Nat} {G : GState n} (h : Reachable G) : Inv G := by
  unfold Reachable at h
  induction h with
  | refl => exact inv_init n
  | tail hab hbc ih =>
    obtain ⟨i, hstep⟩ := hbc
    exact inv_step ih hstep

theorem eq_held_of_isHeld : ∀ t, isHeld t = true → t = TPC.held := by
  intro t ht
  cases t <;> simp_all [isHeld]

theorem exDemoted_reachable : Reachable exDemoted := by
  have h1 : Reachable (⟨true, false, 0,
      Function.update (fun _ => TPC.idle) 0 TPC.wAcq⟩ : GState 2) :=
    Relation.ReflTransGen.single ⟨0, Step.startLock _ rfl rfl⟩
  have h2 : Reachable (⟨true, true, 0,
      Function.update (Function.update (fun _ => TPC.idle) 0 TPC.wAcq)
        0 TPC.held⟩ : GState 2) :=
    h1.tail ⟨0, Step.finishLock _ rfl rfl rfl⟩
  have h3 : Reachable (⟨true, false, 0,
      Function.update (Function.update (Function.update (fun _ => TPC.idle)
        0 TPC.wAcq) 0 TPC.held) 0 TPC.dRel⟩ : GState 2) :=
    h2.tail ⟨0, Step.demoteRel _ rfl rfl⟩
  exact h3.tail ⟨0, Step.demoteAcq _ rfl rfl⟩

end Conc

namespace Incr

theorem inX_imp_active : ∀ t, inX t = true → active t = true := by
  intro t ht
  cases t <;> simp_all [inX, active]

theorem inS_imp_active : ∀ t, inS t = true → active t = true := by
  intro t ht
  cases t <;> simp_all [inS, active]

theorem mid_imp_active : ∀ t, mid t = true → active t = true := by
  intro t ht
  cases t <;> simp_all [mid, active]

theorem writer_false_of {n : Nat} {S : IState n} (hInv : Inv S) (i : Fin n)
    (hi : active (S.pc i) = true) (hnx : inX (S.pc i) = false) :
    S.writer = false := by
  cases hw2 : S.writer
  · rfl
  · exfalso
    obtain ⟨j, hj⟩ := (cnt_pos_iff inX S.pc).1 (hInv.hX.1 hw2)
    have hja : active (S.pc j) = true := inX_imp_active _ hj
    have hji : j = i := eq_of_cnt_le_one active S.pc hInv.hU j i hja hi
    rw [hji, hnx] at hj
    cases hj

theorem readers_zero_of {n : Nat} {S : IState n} (hInv : Inv S) (i : Fin n)
    (hi : active (S.pc i) = true) (hns : inS (S.pc i) = false) :
    S.readers = 0 := by
  rw [hInv.hR]
  by_contra hc
  obtain ⟨j, hj⟩ := (cnt_pos_iff inS S.pc).1 (by omega)
  have hja : active (S.pc j) = true := inS_imp_active _ hj
  have hji : j = i := eq_of_cnt_le_one active S.pc hInv.hU j i hja hi
  rw [hji, hns] at hj
  cases hj

theorem incr_inv_init (n : Nat) : Inv (init n) := by
  have h0 : ∀ p : IPC → Bool, p IPC.a0 = false → cnt p (init n).pc = 0 :=
    fun p hp => (cnt_eq_zero_iff p _).2 fun _ => hp
  refine ⟨?_, ?_, ?_, ?_, ?_, ?_⟩
  · rw [h0 active rfl]; omega
  · rw [h0 active rfl]
    exact Iff.intro (fun h => absurd h (by simp [init])) (fun h => absurd h (by omega))
  · rw [h0 inX rfl]
    exact Iff.intro (fun h => absurd h (by simp [init])) (fun h => absurd h (by omega))
  · rw [h0 inS rfl]; rfl
  · rw [h0 wrote rfl]; rfl
  · intro j hj
    simp [init, mid] at hj

theorem incr_inv_step {n : Nat} {i : Fin n} {S T : IState n} (hInv : Inv S)
    (hstep : Step i S T) : Inv T := by
  obtain ⟨hU, hW, hX, hR, hC, hL⟩ := hInv
  have hmX := cnt_mono inX active S.pc inX_imp_active
  have hmS := cnt_mono inS active S.pc inS_imp_active
  cases hstep with
  | acqW hp hw =>
    have eA := cnt_update active S.pc i IPC.a1
    have eX := cnt_update inX S.pc i IPC.a1
    have eS := cnt_update inS S.pc i IPC.a1
    have eC := cnt_update wrote S.pc i IPC.a1
    rw [hp] at eA eX eS eC
    simp [active, inX, inS, wrote] at eA eX eS eC
    have h0 : cnt active S.pc = 0 := by
      by_contra hc
      have h1 : S.w = true := hW.2 (by omega)
      rw [h1] at hw; cases hw
    refine ⟨?_, ?_, ?_, ?_, ?_, ?_⟩ <;> dsimp only
    · omega
    · exact Iff.intro (fun _ => by omega) (fun _ => rfl)
    · have h2 : cnt inX (Function.update S.pc i IPC.a1) = cnt inX S.pc := by omega
      rw [h2]; exact hX
    · have h2 : cnt inS (Function.update S.pc i IPC.a1) = cnt inS S.pc := by omega
      rw [h2]; exact hR
    · have h2 : cnt wrote (Function.update S.pc i IPC.a1) = cnt wrote S.pc := by omega
      rw [h2]; exact hC
    · intro j hj
      by_cases hji : j = i
      · subst hji
        rw [Function.update_same] at hj
        simp [mid] at hj
      · rw [Function.update_noteq hji] at hj
        exact hL j hj
  | acqX1 hp hwr hr =>
    have eA := cnt_update active S.pc i IPC.a2
    have eX := cnt_update inX S.pc i IPC.a2
    have eS := cnt_update inS S.pc i IPC.a2
    have eC := cnt_update wrote S.pc i IPC.a2
    rw [hp] at eA eX eS eC
    simp [active, inX, inS, wrote] at eA eX eS eC
    refine ⟨?_, ?_, ?_, ?_, ?_, ?_⟩ <;> dsimp only
    · omega
    · have h2 : cnt active (Function.update S.pc i IPC.a2) = cnt active S.pc := by omega
      rw [h2]; exact hW
    · exact Iff.intro (fun _ => by omega) (fun _ => rfl)
    · have h2 : cnt inS (Function.update S.pc i IPC.a2) = cnt inS S.pc := by omega
      rw [h2]; exact hR
    · have h2 : cnt wrote (Function.update S.pc i IPC.a2) = cnt wrote S.pc := by omega
      rw [h2]; exact hC
    · intro j hj
      by_cases hji : j = i
      · subst hji
        rw [Function.update_same] at hj
        simp [mid] at hj
      · rw [Function.update_noteq hji] at hj
        exact hL j hj
  | relX1 hp hwr =>
    have eA := cnt_update active S.pc i IPC.a3
    have eX := cnt_update inX S.pc i IPC.a3
    have eS := cnt_update inS S.pc i IPC.a3
    have eC := cnt_update wrote S.pc i IPC.a3
    rw [hp] at eA eX eS eC
    simp [active, inX, inS, wrote] at eA eX eS eC
    refine ⟨?_, ?_, ?_, ?_, ?_, ?_⟩ <;> dsimp only
    · omega
    · have h2 : cnt active (Function.update S.pc i IPC.a3) = cnt active S.pc := by omega
      rw [h2]; exact hW
    · exact Iff.intro (fun h => absurd h (by simp)) (fun h => absurd h (by omega))
    · have h2 : cnt inS (Function.update S.pc i IPC.a3) = cnt inS S.pc := by omega
      rw [h2]; exact hR
    · have h2 : cnt wrote (Function.update S.pc i IPC.a3) = cnt wrote S.pc := by omega
      rw [h2]; exact hC
    · intro j hj
      by_cases hji : j = i
      · subst hji
        rw [Function.update_same] at hj
        simp [mid] at hj
      · rw [Function.update_noteq hji] at hj
        exact hL j hj
  | acqS hp hwr =>
    have eA := cnt_update active S.pc i IPC.a4
    have eX := cnt_update inX S.pc i IPC.a4
    have eS := cnt_update inS S.pc i IPC.a4
    have eC := cnt_update wrote S.pc i IPC.a4
    rw [hp] at eA eX eS eC
    simp [active, inX, inS, wrote] at eA eX eS eC
    have hx0 : cnt inX S.pc = 0 := by
      by_contra hc
      have h1 : S.writer = true := hX.2 (by omega)
      rw [h1] at hwr; cases hwr
    refine ⟨?_, ?_, ?_, ?_, ?_, ?_⟩ <;> dsimp only
    · omega
    · have h2 : cnt active (Function.update S.pc i IPC.a4) = cnt active S.pc := by omega
      rw [h2]; exact hW
    · exact Iff.intro (fun h => absurd h (by simp)) (fun h => absurd h (by omega))
    · omega
    · have h2 : cnt wrote (Function.update S.pc i IPC.a4) = cnt wrote S.pc := by omega
      rw [h2]; exact hC
    · intro j hj
      by_cases hji : j = i
      · subst hji
        rw [Function.update_same] at hj
        simp [mid] at hj
      · rw [Function.update_noteq hji] at hj
        exact hL j hj
  | readC hp =>
    have eA := cnt_update active S.pc i IPC.a5
    have eX := cnt_update inX S.pc i IPC.a5
    have eS := cnt_update inS S.pc i IPC.a5
    have eC := cnt_update wrote S.pc i IPC.a5
    rw [hp] at eA eX eS eC
    simp [active, inX, inS, wrote] at eA eX eS eC
    refine ⟨?_, ?_, ?_, ?_, ?_, ?_⟩ <;> dsimp only
    · omega
    · have h2 : cnt active (Function.update S.pc i IPC.a5) = cnt active S.pc := by omega
      rw [h2]; exact hW
    · have h2 : cnt inX (Function.update S.pc i IPC.a5) = cnt inX S.pc := by omega
      rw [h2]; exact hX
    · have h2 : cnt inS (Function.update S.pc i IPC.a5) = cnt inS S.pc := by omega
      rw [h2]; exact hR
    · have h2 : cnt wrote (Function.update S.pc i IPC.a5) = cnt wrote S.pc := by omega
      rw [h2]; exact hC
    · intro j hj
      by_cases hji : j = i
      · subst hji
        rw [Function.update_same]
      · rw [Function.update_noteq hji] at hj
        rw [Function.update_noteq hji]
        exact hL j hj
  | relS hp hr =>
    have eA := cnt_update active S.pc i IPC.a6
    have eX := cnt_update inX S.pc i IPC.a6
    have eS := cnt_update inS S.pc i IPC.a6
    have eC := cnt_update wrote S.pc i IPC.a6
    rw [hp] at eA eX eS eC
    simp [active, inX, inS, wrote] at eA eX eS eC
    refine ⟨?_, ?_, ?_, ?_, ?_, ?_⟩ <;> dsimp only
    · omega
    · have h2 : cnt active (Function.update S.pc i IPC.a6) = cnt active S.pc := by omega
      rw [h2]; exact hW
    · have h2 : cnt inX (Function.update S.pc i IPC.a6) = cnt inX S.pc := by omega
      rw [h2]; exact hX
    · omega
    · have h2 : cnt wrote (Function.update S.pc i IPC.a6) = cnt wrote S.pc := by omega
      rw [h2]; exact hC
    · intro j hj
      by_cases hji : j = i
      · subst hji
        exact hL j (by rw [hp]; rfl)
      · rw [Function.update_noteq hji] at hj
        exact hL j hj
  | acqX2 hp hwr hr =>
    have eA := cnt_update active S.pc i IPC.a7
    have eX := cnt_update inX S.pc i IPC.a7
    have eS := cnt_update inS S.pc i IPC.a7
    have eC := cnt_update wrote S.pc i IPC.a7
    rw [hp] at eA eX eS eC
    simp [active, inX, inS, wrote] at eA eX eS eC
    refine ⟨?_, ?_, ?_, ?_, ?_, ?_⟩ <;> dsimp only
    · omega
    · have h2 : cnt active (Function.update S.pc i IPC.a7) = cnt active S.pc := by omega
      rw [h2]; exact hW
    · exact Iff.intro (fun _ => by omega) (fun _ => rfl)
    · have h2 : cnt inS (Function.update S.pc i IPC.a7) = cnt inS S.pc := by omega
      rw [h2]; exact hR
    · have h2 : cnt wrote (Function.update S.pc i IPC.a7) = cnt wrote S.pc := by omega
      rw [h2]; exact hC
    · intro j hj
      by_cases hji : j = i
      · subst hji
        exact hL j (by rw [hp]; rfl)
      · rw [Function.update_noteq hji] at hj
        exact hL j hj
  | writeC hp =>
    have eA := cnt_update active S.pc i IPC.a8
    have eX := cnt_update inX S.pc i IPC.a8
    have eS := cnt_update inS S.pc i IPC.a8
    have eC := cnt_update wrote S.pc i IPC.a8
    rw [hp] at eA eX eS eC
    simp [active, inX, inS, wrote] at eA eX eS eC
    have hLi : S.loc i = S.counter := hL i (by rw [hp]; rfl)
    refine ⟨?_, ?_, ?_, ?_, ?_, ?_⟩ <;> dsimp only
    · omega
    · have h2 : cnt active (Function.update S.pc i IPC.a8) = cnt active S.pc := by omega
      rw [h2]; exact hW
    · have h2 : cnt inX (Function.update S.pc i IPC.a8) = cnt inX S.pc := by omega
      rw [h2]; exact hX
    · have h2 : cnt inS (Function.update S.pc i IPC.a8) = cnt inS S.pc := by omega
      rw [h2]; exact hR
    · omega
    · intro j hj
      by_cases hji : j = i
      · subst hji
        rw [Function.update_same] at hj
        simp [mid] at hj
      · rw [Function.update_noteq hji] at hj
        exact absurd
          (eq_of_cnt_le_one active S.pc hU j i (mid_imp_active _ hj) (by rw [hp]; rfl))
          hji
  | relX2 hp hwr =>
    have eA := cnt_update active S.pc i IPC.a9
    have eX := cnt_update inX S.pc i IPC.a9
    have eS := cnt_update inS S.pc i IPC.a9
    have eC := cnt_update wrote S.pc i IPC.a9
    rw [hp] at eA eX eS eC
    simp [active, inX, inS, wrote] at eA eX eS eC
    refine ⟨?_, ?_, ?_, ?_, ?_, ?_⟩ <;> dsimp only
    · omega
    · have h2 : cnt active (Function.update S.pc i IPC.a9) = cnt active S.pc := by omega
      rw [h2]; exact hW
    · exact Iff.intro (fun h => absurd h (by simp)) (fun h => absurd h (by omega))
    · have h2 : cnt inS (Function.update S.pc i IPC.a9) = cnt inS S.pc := by omega
      rw [h2]; exact hR
    · omega
    · intro j hj
      by_cases hji : j = i
      · subst hji
        rw [Function.update_same] at hj
        simp [mid] at hj
      · rw [Function.update_noteq hji] at hj
        exact hL j hj
  | relW hp hw =>
    have eA := cnt_update active S.pc i IPC.fin
    have eX := cnt_update inX S.pc i IPC.fin
    have eS := cnt_update inS S.pc i IPC.fin
    have eC := cnt_update wrote S.pc i IPC.fin
    rw [hp] at eA eX eS eC
    simp [active, inX, inS, wrote] at eA eX eS eC
    have hw1 : 0 < cnt active S.pc := hW.1 hw
    refine ⟨?_, ?_, ?_, ?_, ?_, ?_⟩ <;> dsimp only
    · omega
    · exact Iff.intro (fun h => absurd h (by simp)) (fun h => absurd h (by omega))
    · have h2 : cnt inX (Function.update S.pc i IPC.fin) = cnt inX S.pc := by omega
      rw [h2]; exact hX
    · have h2 : cnt inS (Function.update S.pc i IPC.fin) = cnt inS S.pc := by omega
      rw [h2]; exact hR
    · omega
    · intro j hj
      by_cases hji : j = i
      · subst hji
        rw [Function.update_same] at hj
        simp [mid] at hj
      · rw [Function.update_noteq hji] at hj
        exact hL j hj

theorem incr_inv_reachable {n : Nat} {S : IState n} (h : Reachable S) : Inv S := by
  unfold Reachable at h
  induction h with
  | refl => exact incr_inv_init n
  | tail hab hbc ih =>
    obtain ⟨i, hstep⟩ := hbc
    exact incr_inv_step ih hstep

theorem progress {n : Nat} {S : IState n} (hInv : Inv S)
    (h : ∃ i, S.pc i ≠ IPC.fin) : ∃ i T, Step i S T := by
  by_cases hact : ∃ i, active (S.pc i) = true
  · obtain ⟨i, hi⟩ := hact
    cases hpi : S.pc i with
    | a0 => rw [hpi] at hi; simp [active] at hi
    | a1 =>
      have hwr : S.writer = false :=
        writer_false_of hInv i hi (by rw [hpi]; rfl)
      have hr0 : S.readers = 0 :=
        readers_zero_of hInv i hi (by rw [hpi]; rfl)
      exact ⟨i, _, Step.acqX1 S hpi hwr hr0⟩
    | a2 =>
      have hwt : S.writer = true :=
        hInv.hX.2 ((cnt_pos_iff inX S.pc).2 ⟨i, by rw [hpi]; rfl⟩)
      exact ⟨i, _, Step.relX1 S hpi hwt⟩
    | a3 =>
      have hwr : S.writer = false :=
        writer_false_of hInv i hi (by rw [hpi]; rfl)
      exact ⟨i, _, Step.acqS S hpi hwr⟩
    | a4 => exact ⟨i, _, Step.readC S hpi⟩
    | a5 =>
      have hrp : 0 < S.readers := by
        rw [hInv.hR]
        exact (cnt_pos_iff inS S.pc).2 ⟨i, by rw [hpi]; rfl⟩
      exact ⟨i, _, Step.relS S hpi hrp⟩
    | a6 =>
      have hwr : S.writer = false :=
        writer_false_of hInv i hi (by rw [hpi]; rfl)
      have hr0 : S.readers = 0 :=
        readers_zero_of hInv i hi (by rw [hpi]; rfl)
      exact ⟨i, _, Step.acqX2 S hpi hwr hr0⟩
    | a7 => exact ⟨i, _, Step.writeC S hpi⟩
    | a8 =>
      have hwt : S.writer = true :=
        hInv.hX.2 ((cnt_pos_iff inX S.pc).2 ⟨i, by rw [hpi]; rfl⟩)
      exact ⟨i, _, Step.relX2 S hpi hwt⟩
    | a9 =>
      have hwt : S.w = true :=
        hInv.hW.2 ((cnt_pos_iff active S.pc).2 ⟨i, hi⟩)
      exact ⟨i, _, Step.relW S hpi hwt⟩
    | fin => rw [hpi] at hi; simp [active] at hi
  · push_neg at hact
    obtain ⟨i, hfin⟩ := h
    have hia : active (S.pc i) = false := by
      cases hj : active (S.pc i)
      · rfl
      · exact absurd hj (hact i)
    have hpi : S.pc i = IPC.a0 := by
      cases hpj : S.pc i <;> rw [hpj] at hia hfin <;> simp [active] at hia hfin ⊢
    have hw0 : S.w = false := by
      cases hwv : S.w
      · rfl
      · exfalso
        obtain ⟨j, hj⟩ := (cnt_pos_iff active S.pc).1 (hInv.hW.1 hwv)
        have := hact j
        rw [hj] at this
        exact this rfl
    exact ⟨i, _, Step.acqW S hpi hw0⟩

theorem counter_of_done {n : Nat} {S : IState n} (hInv : Inv S)
    (h : ∀ i, S.pc i = IPC.fin) : S.counter = n := by
  rw [hInv.hC]
  exact cnt_all wrote S.pc fun j => by rw [h j]; rfl

end Incr

theorem spec_sim_step (op : Op) (s s2 : SpecState) (h : specStep op s = some s2) :
    ∃ tr trG, Bare.exec op (conc s) = .ok (conc s2) tr
      ∧ Guarded.exec op (concG s) = .ok (concG s2) trG
      ∧ trG.filter (fun a => a.onWR) = tr := by
  cases op with
  | Lock =>
    cases s with
    | Unlocked =>
      simp [specStep] at h
      subst h
      exact ⟨[.acqW, .acqX], [.acqW, .acqX], by decide, by decide, by decide⟩
    | WriteLocked => simp [specStep] at h
    | WriteLockedDemoted k => simp [specStep] at h
    | ReadLocked k => simp [specStep] at h
  | Unlock =>
    cases s with
    | Unlocked => simp [specStep] at h
    | WriteLocked =>
      simp [specStep] at h
      subst h
      exact ⟨[.relX, .relW], [.relX, .relW], by decide, by decide, by decide⟩
    | WriteLockedDemoted k => simp [specStep] at h
    | ReadLocked k => simp [specStep] at h
  | Demote =>
    cases s with
    | Unlocked => simp [specStep] at h
    | WriteLocked =>
      simp [specStep] at h
      subst h
      exact ⟨[.relX, .acqS], [.relX, .acqS, .acqG], by decide, by decide, by decide⟩
    | WriteLockedDemoted k => simp [specStep] at h
    | ReadLocked k => simp [specStep] at h
  | Promote =>
    cases s with
    | Unlocked => simp [specStep] at h
    | WriteLocked => simp [specStep] at h
    | WriteLockedDemoted k =>
      cases k with
      | zero =>
        simp [specStep] at h
        subst h
        exact ⟨[.relS, .acqX], [.relS, .acqX, .relG], by decide, by decide, by decide⟩
      | succ k => simp [specStep] at h
    | ReadLocked k => simp [specStep] at h
  | RLock =>
    cases s with
    | Unlocked =>
      simp [specStep] at h
      subst h
      exact ⟨[.acqS], [.acqS], by decide, by decide, by decide⟩
    | WriteLocked => simp [specStep] at h
    | WriteLockedDemoted k =>
      simp [specStep] at h
      subst h
      exact ⟨[.acqS], [.acqS], rfl, rfl, rfl⟩
    | ReadLocked k =>
      simp [specStep] at h
      subst h
      exact ⟨[.acqS], [.acqS], rfl, rfl, rfl⟩
  | RUnlock =>
    cases s with
    | Unlocked => simp [specStep] at h
    | WriteLocked => simp [specStep] at h
    | WriteLockedDemoted k =>
      cases k with
      | zero => simp [specStep] at h
      | succ k =>
        simp [specStep] at h
        subst h
        exact ⟨[.relS], [.relS], rfl, rfl, rfl⟩
    | ReadLocked k =>
      cases k with
      | zero =>
        simp [specStep] at h
        subst h
        exact ⟨[.relS], [.relS], rfl, rfl, rfl⟩
      | succ k =>
        simp [specStep] at h
        subst h
        exact ⟨[.relS], [.relS], rfl, rfl, rfl⟩

theorem spec_sim (ops : List Op) : ∀ (s s2 : SpecState),
    specRunFrom s ops = some s2 →
    ∃ tr trG, Bare.runFrom (conc s) ops = .ok (conc s2) tr
      ∧ Guarded.runFrom (concG s) ops = .ok (concG s2) trG
      ∧ trG.filter (fun a => a.onWR) = tr := by
  induction ops with
  | nil =>
    intro s s2 h
    simp [specRunFrom] at h
    subst h
    exact ⟨[], [], rfl, rfl, rfl⟩
  | cons op rest ih =>
    intro s s2 h
    cases hstep : specStep op s with
    | none =>
      rw [specRunFrom, hstep] at h
      cases h
    | some s1 =>
      rw [specRunFrom, hstep] at h
      obtain ⟨tr1, trG1, hb1, hg1, hf1⟩ := spec_sim_step op s s1 hstep
      obtain ⟨tr2, trG2, hb2, hg2, hf2⟩ := ih s1 s2 h
      refine ⟨tr1 ++ tr2, trG1 ++ trG2, ?_, ?_, ?_⟩
      · rw [Bare.runFrom, hb1, Res.bind, hb2]
      · rw [Guarded.runFrom, hg1, Res.bind, hg2]
      · rw [List.filter_append, hf1, hf2]

/-- Claim C1: Demote and Promote modify only the read/write gate — in both
variants they leave the write gate `w` untouched (same `w` component, no
`acqW`/`relW` in their gate-action trace), and in any reachable state of the
concurrent model in which a thread `i` is inside its Demote..Promote window,
the write gate is held with `i` as its unique holder, so no other thread can
even begin acquiring the write gate (the first step of a `Lock`..`Unlock`
cycle). -/
theorem claim_C1 :
    (∀ (m s : Bare.Motex) (tr : List GateAct),
      Bare.Motex.Demote m = Res.ok s tr →
      s.w = m.w ∧ tr.all (fun a => !a.onW) = true)
    ∧ (∀ (m s : Bare.Motex) (tr : List GateAct),
      Bare.Motex.Promote m = Res.ok s tr →
      s.w = m.w ∧ tr.all (fun a => !a.onW) = true)
    ∧ (∀ (m s : Guarded.Motex) (tr : List GateAct),
      Guarded.Motex.Demote m = Res.ok s tr →
      s.w = m.w ∧ tr.all (fun a => !a.onW) = true)
    ∧ (∀ (m s : Guarded.Motex) (tr : List GateAct),
      Guarded.Motex.Promote m = Res.ok s tr →
      s.w = m.w ∧ tr.all (fun a => !a.onW) = true)
    ∧ (∀ (n : Nat) (G : Conc.GState n) (i : Fin n), Conc.Reachable G →
      Conc.inDemotedWindow (G.pc i) = true →
      G.w = true ∧ (∀ j, Conc.holdsW (G.pc j) = true → j = i)
      ∧ (∀ j H, Conc.Step j G H → G.pc j = Conc.TPC.idle →
          H.pc j ≠ Conc.TPC.wAcq)) := by
  refine ⟨?_, ?_, ?_, ?_, ?_⟩
  · intro m s tr h
    obtain ⟨w, writer, readers⟩ := m
    cases writer with
    | false => simp [Bare.Motex.Demote, Bare.rUnlock, Res.bind] at h
    | true =>
      simp [Bare.Motex.Demote, Bare.rUnlock, Bare.rRLock, Res.bind] at h
      obtain ⟨h1, h2⟩ := h
      subst h1
      subst h2
      exact ⟨rfl, rfl⟩
  · intro m s tr h
    obtain ⟨w, writer, readers⟩ := m
    cases readers with
    | zero => simp [Bare.Motex.Promote, Bare.rRUnlock, Res.bind] at h
    | succ k =>
      cases writer with
      | true => simp [Bare.Motex.Promote, Bare.rRUnlock, Bare.rLock, Res.bind] at h
      | false =>
        cases k with
        | zero =>
          simp [Bare.Motex.Promote, Bare.rRUnlock, Bare.rLock, Res.bind] at h
          obtain ⟨h1, h2⟩ := h
          subst h1
          subst h2
          exact ⟨rfl, rfl⟩
        | succ k2 =>
          simp [Bare.Motex.Promote, Bare.rRUnlock, Bare.rLock, Res.bind] at h
  · intro m s tr h
    obtain ⟨w, ⟨writer, readers⟩, g⟩ := m
    cases writer with
    | false => simp [Guarded.Motex.Demote, Guarded.rUnlock, Res.bind] at h
    | true =>
      cases g with
      | true =>
        simp [Guarded.Motex.Demote, Guarded.rUnlock, Guarded.rRLock,
          Guarded.gLock, Res.bind] at h
      | false =>
        simp [Guarded.Motex.Demote, Guarded.rUnlock, Guarded.rRLock,
          Guarded.gLock, Res.bind] at h
        obtain ⟨h1, h2⟩ := h
        subst h1
        subst h2
        exact ⟨rfl, rfl⟩
  · intro m s tr h
    obtain ⟨w, ⟨writer, readers⟩, g⟩ := m
    cases readers with
    | zero => simp [Guarded.Motex.Promote, Guarded.rRUnlock, Res.bind] at h
    | succ k =>
      cases writer with
      | true =>
        simp [Guarded.Motex.Promote, Guarded.rRUnlock, Guarded.rLock,
          Res.bind] at h
      | false =>
        cases k with
        | zero =>
          cases g with
          | false =>
            simp [Guarded.Motex.Promote, Guarded.rRUnlock, Guarded.rLock,
              Guarded.gUnlock, Res.bind] at h
          | true =>
            simp [Guarded.Motex.Promote, Guarded.rRUnlock, Guarded.rLock,
              Guarded.gUnlock, Res.bind] at h
            obtain ⟨h1, h2⟩ := h
            subst h1
            subst h2
            exact ⟨rfl, rfl⟩
        | succ k2 =>
          simp [Guarded.Motex.Promote, Guarded.rRUnlock, Guarded.rLock,
            Res.bind] at h
  · intro n G i hreach hwin
    have hInv := Conc.inv_reachable hreach
    have hiW : Conc.holdsW (G.pc i) = true := Conc.window_imp_holdsW _ hwin
    have hwT : G.w = true := hInv.hW.2 ((cnt_pos_iff _ _).2 ⟨i, hiW⟩)
    refine ⟨hwT, ?_, ?_⟩
    · intro j hj
      exact eq_of_cnt_le_one Conc.holdsW G.pc hInv.hU j i hj hiW
    · intro j H hstep hidle
      cases hstep with
      | startLock hp hw => rw [hwT] at hw; cases hw
      | rlock hp hwr =>
        dsimp only
        rw [Function.update_same]
        simp
      | finishLock hp hwr hr => rw [hidle] at hp; cases hp
      | demoteRel hp hwr => rw [hidle] at hp; cases hp
      | demoteAcq hp hwr => rw [hidle] at hp; cases hp
      | promoteRel hp hr => rw [hidle] at hp; cases hp
      | promoteAcq hp hwr hr => rw [hidle] at hp; cases hp
      | unlockRel hp hwr => rw [hidle] at hp; cases hp
      | unlockW hp hw => rw [hidle] at hp; cases hp
      | runlock hp hr => rw [hidle] at hp; cases hp

theorem claim_C1_witness :
    ((⟨true, ⟨false, 1⟩⟩ : Bare.Motex).w = (⟨true, ⟨true, 0⟩⟩ : Bare.Motex).w)
    ∧ Conc.exDemoted.w = true := by
  constructor
  · exact (claim_C1.1 ⟨true, ⟨true, 0⟩⟩ ⟨true, ⟨false, 1⟩⟩
      [.relX, .acqS] (by decide)).1
  · exact (claim_C1.2.2.2.2 2 Conc.exDemoted 0 Conc.exDemoted_reachable
      (by decide)).1

/-- Claim C2: each of the six operations of the bare variant, run from its
section 4.3 precondition state, performs exactly the table's gate actions in
the stated order: Lock = acquire `w` then acquire `r` exclusive; Unlock =
release `r` exclusive then release `w`; Demote = release exclusive then
acquire shared; Promote = release shared then acquire exclusive; RLock /
RUnlock = acquire / release exactly one shared slot, touching no other
gate. -/
theorem claim_C2 :
    Bare.Motex.Lock Bare.init
      = Res.ok ⟨true, ⟨true, 0⟩⟩ [.acqW, .acqX]
    ∧ Bare.Motex.Unlock ⟨true, ⟨true, 0⟩⟩
      = Res.ok ⟨false, ⟨false, 0⟩⟩ [.relX, .relW]
    ∧ Bare.Motex.Demote ⟨true, ⟨true, 0⟩⟩
      = Res.ok ⟨true, ⟨false, 1⟩⟩ [.relX, .acqS]
    ∧ Bare.Motex.Promote ⟨true, ⟨false, 1⟩⟩
      = Res.ok ⟨true, ⟨true, 0⟩⟩ [.relS, .acqX]
    ∧ (∀ (b : Bool) (k : Nat), Bare.Motex.RLock ⟨b, ⟨false, k⟩⟩
      = Res.ok ⟨b, ⟨false, k + 1⟩⟩ [.acqS])
    ∧ (∀ (b : Bool) (k : Nat), Bare.Motex.RUnlock ⟨b, ⟨false, k + 1⟩⟩
      = Res.ok ⟨b, ⟨false, k⟩⟩ [.relS]) :=
  ⟨by decide, by decide, by decide, by decide, fun b k => rfl, fun b k => rfl⟩

/-- Claim C3: in the guarded variant, Promote from every state that is not
WriteLockedDemoted is fatal at that call: on a fresh lock, after Lock alone,
after a completed Demote-Promote pair, and — thanks to the guard mutex — in
a pure-reader state created by a plain RLock. -/
theorem claim_C3 :
    Guarded.Motex.Promote Guarded.init = Res.fatal
    ∧ ((Guarded.run [.Lock]).isOk = true
      ∧ Guarded.run [.Lock, .Promote] = Res.fatal)
    ∧ ((Guarded.run [.Lock, .Demote, .Promote]).isOk = true
      ∧ Guarded.run [.Lock, .Demote, .Promote, .Promote] = Res.fatal)
    ∧ ((Guarded.run [.RLock]).isOk = true
      ∧ Guarded.run [.RLock, .Promote] = Res.fatal) := by
  decide

/-- Claim C4: the bare two-gate composition does not detect every invalid
sequence: RLock followed by Promote violates Promote's section 4.3
precondition (the abstract machine rejects it), yet the bare implementation
completes it with no fatal error and no blocking. -/
theorem claim_C4 :
    specRun [.RLock] = some (.ReadLocked 0)
    ∧ specStep .Promote (.ReadLocked 0) = none
    ∧ Bare.run [.RLock, .Promote]
      = Res.ok ⟨false, ⟨true, 0⟩⟩ [.acqS, .relS, .acqX] := by
  decide

/-- Claim C5: each of the twelve enumerated misuse sequences is fatal on the
bare variant and never silently succeeds: in every case the prefix before
the offending call completes, and the offending call itself is a fatal
run-time error. -/
theorem claim_C5 :
    ((Bare.run []).isOk = true ∧ Bare.run [.Unlock] = Res.fatal)
    ∧ ((Bare.run [.Lock, .Unlock]).isOk = true
      ∧ Bare.run [.Lock, .Unlock, .Unlock] = Res.fatal)
    ∧ ((Bare.run []).isOk = true ∧ Bare.run [.RUnlock] = Res.fatal)
    ∧ ((Bare.run [.RLock, .RUnlock]).isOk = true
      ∧ Bare.run [.RLock, .RUnlock, .RUnlock] = Res.fatal)
    ∧ ((Bare.run []).isOk = true ∧ Bare.run [.Promote] = Res.fatal)
    ∧ ((Bare.run []).isOk = true ∧ Bare.run [.Demote] = Res.fatal)
    ∧ ((Bare.run [.Lock]).isOk = true
      ∧ Bare.run [.Lock, .Promote] = Res.fatal)
    ∧ ((Bare.run [.Lock, .Demote]).isOk = true
      ∧ Bare.run [.Lock, .Demote, .Demote] = Res.fatal)
    ∧ ((Bare.run [.Lock, .Demote, .Promote]).isOk = true
      ∧ Bare.run [.Lock, .Demote, .Promote, .Promote] = Res.fatal)
    ∧ ((Bare.run [.Lock, .Demote]).isOk = true
      ∧ Bare.run [.Lock, .Demote, .Unlock] = Res.fatal)
    ∧ ((Bare.run [.Lock]).isOk = true
      ∧ Bare.run [.Lock, .RUnlock] = Res.fatal)
    ∧ ((Bare.run [.RLock]).isOk = true
      ∧ Bare.run [.RLock, .Unlock] = Res.fatal) := by
  decide

/-- Claim C6: in every reachable state of the concurrent model, at most one
thread holds the write gate; when the read/write gate is held exclusively
its single holder also holds the write gate; and when a thread is demoted it
is the unique write-gate holder, the write gate is held, and the shared
slots are exactly its one slot plus those of the plain readers. -/
theorem claim_C6 : ∀ (n : Nat) (G : Conc.GState n), Conc.Reachable G →
    ((∀ i j, Conc.holdsW (G.pc i) = true → Conc.holdsW (G.pc j) = true → i = j)
    ∧ (G.writer = true → ∃ i, G.pc i = Conc.TPC.held ∧ G.w = true
        ∧ ∀ j, G.pc j = Conc.TPC.held → j = i)
    ∧ (∀ i, G.pc i = Conc.TPC.dHeld → G.w = true
        ∧ (∀ j, Conc.holdsW (G.pc j) = true → j = i)
        ∧ G.readers = 1 + cnt Conc.isRHeld G.pc)) := by
  intro n G hreach
  have hInv := Conc.inv_reachable hreach
  refine ⟨?_, ?_, ?_⟩
  · intro i j hi hj
    exact eq_of_cnt_le_one Conc.holdsW G.pc hInv.hU i j hi hj
  · intro hwr
    obtain ⟨i, hi⟩ := (cnt_pos_iff Conc.isHeld G.pc).1 (hInv.hX.1 hwr)
    have hpi : G.pc i = Conc.TPC.held := Conc.eq_held_of_isHeld _ hi
    have hiW : Conc.holdsW (G.pc i) = true := Conc.isHeld_imp_holdsW _ hi
    refine ⟨i, hpi, hInv.hW.2 ((cnt_pos_iff _ _).2 ⟨i, hiW⟩), ?_⟩
    intro j hj
    have hjH : Conc.isHeld (G.pc j) = true := by rw [hj]; rfl
    exact eq_of_cnt_le_one Conc.holdsW G.pc hInv.hU j i
      (Conc.isHeld_imp_holdsW _ hjH) hiW
  · intro i hd
    have hdH : Conc.isDHeld (G.pc i) = true := by rw [hd]; rfl
    have hiW : Conc.holdsW (G.pc i) = true := Conc.isDHeld_imp_holdsW _ hdH
    have hw : G.w = true := hInv.hW.2 ((cnt_pos_iff _ _).2 ⟨i, hiW⟩)
    refine ⟨hw, fun j hj =>
      eq_of_cnt_le_one Conc.holdsW G.pc hInv.hU j i hj hiW, ?_⟩
    have hsplit := Conc.shared_eq_dheld_add_rheld G.pc
    have hd1 : cnt Conc.isDHeld G.pc = 1 := by
      have hle : cnt Conc.isDHeld G.pc ≤ cnt Conc.holdsW G.pc :=
        cnt_mono _ _ _ Conc.isDHeld_imp_holdsW
      have hpos : 0 < cnt Conc.isDHeld G.pc := (cnt_pos_iff _ _).2 ⟨i, hdH⟩
      have hu := hInv.hU
      omega
    rw [hInv.hR, hsplit, hd1]

theorem claim_C6_witness :
    Conc.exDemoted.w = true
    ∧ Conc.exDemoted.readers = 1 + cnt Conc.isRHeld Conc.exDemoted.pc := by
  have h := (claim_C6 2 Conc.exDemoted Conc.exDemoted_reachable).2.2 0 (by decide)
  exact ⟨h.1, h.2.2⟩

/-- Claim C7: release operations never block: from any state satisfying the
operation's precondition, Unlock, RUnlock and Demote complete immediately
(result `ok`, never `blocked`) in both variants; for the guarded variant's
Demote this includes the guard-mutex acquisition, which succeeds because in
a WriteLocked state the guard mutex is free. -/
theorem claim_C7 :
    (∀ m : Bare.Motex, m.w = true → m.r.writer = true →
      (Bare.Motex.Unlock m).isOk = true)
    ∧ (∀ m : Bare.Motex, m.r.writer = true →
      (Bare.Motex.Demote m).isOk = true)
    ∧ (∀ m : Bare.Motex, 0 < m.r.readers →
      (Bare.Motex.RUnlock m).isOk = true)
    ∧ (∀ m : Guarded.Motex, m.w = true → m.r.writer = true →
      (Guarded.Motex.Unlock m).isOk = true)
    ∧ (∀ m : Guarded.Motex, m.r.writer = true → m.g = false →
      (Guarded.Motex.Demote m).isOk = true)
    ∧ (∀ m : Guarded.Motex, 0 < m.r.readers →
      (Guarded.Motex.RUnlock m).isOk = true) := by
  refine ⟨?_, ?_, ?_, ?_, ?_, ?_⟩
  · intro m h1 h2
    simp [Bare.Motex.Unlock, Bare.rUnlock, Bare.wUnlock, Res.bind, Res.isOk,
      h1, h2]
  · intro m h1
    simp [Bare.Motex.Demote, Bare.rUnlock, Bare.rRLock, Res.bind, Res.isOk, h1]
  · intro m h1
    cases hk : m.r.readers with
    | zero => rw [hk] at h1; exact absurd h1 (by omega)
    | succ k => simp [Bare.Motex.RUnlock, Bare.rRUnlock, hk, Res.isOk]
  · intro m h1 h2
    simp [Guarded.Motex.Unlock, Guarded.rUnlock, Guarded.wUnlock, Res.bind,
      Res.isOk, h1, h2]
  · intro m h1 h2
    simp [Guarded.Motex.Demote, Guarded.rUnlock, Guarded.rRLock,
      Guarded.gLock, Res.bind, Res.isOk, h1, h2]
  · intro m h1
    cases hk : m.r.readers with
    | zero => rw [hk] at h1; exact absurd h1 (by omega)
    | succ k => simp [Guarded.Motex.RUnlock, Guarded.rRUnlock, hk, Res.isOk]

theorem claim_C7_witness :
    (Bare.Motex.Unlock ⟨true, ⟨true, 0⟩⟩).isOk = true
    ∧ (Bare.Motex.Demote ⟨true, ⟨true, 0⟩⟩).isOk = true
    ∧ (Bare.Motex.RUnlock ⟨false, ⟨false, 1⟩⟩).isOk = true
    ∧ (Guarded.Motex.Unlock ⟨true, ⟨true, 0⟩, false⟩).isOk = true
    ∧ (Guarded.Motex.Demote ⟨true, ⟨true, 0⟩, false⟩).isOk = true
    ∧ (Guarded.Motex.RUnlock ⟨false, ⟨false, 1⟩, false⟩).isOk = true :=
  ⟨claim_C7.1 ⟨true, ⟨true, 0⟩⟩ rfl rfl,
   claim_C7.2.1 ⟨true, ⟨true, 0⟩⟩ rfl,
   claim_C7.2.2.1 ⟨false, ⟨false, 1⟩⟩ (by decide),
   claim_C7.2.2.2.1 ⟨true, ⟨true, 0⟩, false⟩ rfl rfl,
   claim_C7.2.2.2.2.1 ⟨true, ⟨true, 0⟩, false⟩ rfl rfl,
   claim_C7.2.2.2.2.2 ⟨false, ⟨false, 1⟩, false⟩ (by decide)⟩

/-- Claim C8: the deadlock-test sequence Lock; Demote; Promote; Demote;
RLock; RLock; RUnlock; RUnlock; Promote; Unlock; RLock; RLock; RUnlock;
RUnlock runs to completion on a fresh bare Motex: every prefix completes
(no step blocks or faults), so the sequence never deadlocks. -/
theorem claim_C8 :
    ((List.range (deadlockSeq.length + 1)).all
      fun k => (Bare.run (List.take k deadlockSeq)).isOk) = true := by
  decide

/-- Claim C9: for any number `n` of threads each running the demoted
increment Lock(); Demote(); x := counter; Promote(); counter = x + 1;
Unlock() on one shared lock, every reachable state in which all threads have
finished has counter `n` (no increment is lost under any interleaving), and
from every reachable state in which some thread is unfinished some thread
can step (the system never deadlocks mid-way). -/
theorem claim_C9 : ∀ (n : Nat) (S : Incr.IState n), Incr.Reachable S →
    ((∀ i, S.pc i = Incr.IPC.fin) → S.counter = n)
    ∧ ((∃ i, S.pc i ≠ Incr.IPC.fin) → ∃ i T, Incr.Step i S T) := by
  intro n S hreach
  have hInv := Incr.incr_inv_reachable hreach
  exact ⟨fun h => Incr.counter_of_done hInv h, fun h => Incr.progress hInv h⟩

theorem claim_C9_witness : ∃ i T, Incr.Step i (Incr.init 1) T :=
  (claim_C9 1 (Incr.init 1) Relation.ReflTransGen.refl).2 ⟨0, by decide⟩

/-- Claim C10: on every call sequence that is legal for the section 4.3
state machine, the bare and the guarded variants both complete without
fault, reach states agreeing on the write gate and the read/write gate, and
perform the same sequence of acquisitions and releases on those two gates
(the guarded trace differs only by guard-mutex actions, which the filter
removes). -/
theorem claim_C10 : ∀ (ops : List Op) (s2 : SpecState),
    specRun ops = some s2 →
    ∃ tr trG, Bare.run ops = Res.ok (conc s2) tr
      ∧ Guarded.run ops = Res.ok (concG s2) trG
      ∧ trG.filter (fun a => a.onWR) = tr
      ∧ (concG s2).w = (conc s2).w ∧ (concG s2).r = (conc s2).r := by
  intro ops s2 h
  obtain ⟨tr, trG, hb, hg, hf⟩ := spec_sim ops SpecState.Unlocked s2 h
  exact ⟨tr, trG, hb, hg, hf, by cases s2 <;> rfl, by cases s2 <;> rfl⟩

theorem claim_C10_witness :
    ∃ tr trG,
      Bare.run [.Lock, .Demote, .RLock, .RUnlock, .Promote, .Unlock]
        = Res.ok (conc SpecState.Unlocked) tr
      ∧ Guarded.run [.Lock, .Demote, .RLock, .RUnlock, .Promote, .Unlock]
        = Res.ok (concG SpecState.Unlocked) trG
      ∧ trG.filter (fun a => a.onWR) = tr
      ∧ (concG SpecState.Unlocked).w = (conc SpecState.Unlocked).w
      ∧ (concG SpecState.Unlocked).r = (conc SpecState.Unlocked).r :=
  claim_C10 [.Lock, .Demote, .RLock, .RUnlock, .Promote, .Unlock]
    SpecState.Unlocked (by decide)
